import Mathlib

set_option linter.unusedVariables false

/-!
Verification of the API-project ingestion pipeline of the adapter
(`adapter/internal/api/apis_impl.go` and the `model` package's
`api.yaml` handling), against the natural-language specification.

Pure Go functions from the source are translated into Lean functions.
The process-wide xds deployment index (package `xds`, not part of the
analysed sources) is modelled from the specification; every such
definition carries a doc comment starting with `Modelled from the spec:`.
-/

namespace Microgateway

/-! Go string primitives

The Go standard-library string functions used by the analysed code,
translated to character-list operations (so that concrete runs reduce). -/

/-- Go `strings.ToUpper` (the manifests only use ASCII letters). -/
def goToUpper (s : String) : String := ⟨s.data.map Char.toUpper⟩

/-- The whitespace test of `strings.TrimSpace` (ASCII part of
`unicode.IsSpace`). -/
def goIsSpace (c : Char) : Bool :=
  c == ' ' || c == '\t' || c == '\n' || c == '\r' ||
  c == Char.ofNat 11 || c == Char.ofNat 12

/-- Go `strings.TrimSpace`. -/
def goTrimSpace (s : String) : String :=
  ⟨((s.data.dropWhile goIsSpace).reverse.dropWhile goIsSpace).reverse⟩

/-- Go `strings.HasPrefix`. -/
def goStartsWith (s p : String) : Bool := p.data.isPrefixOf s.data

/-- Splitting a character list at a separator character: chunks between
occurrences, possibly empty, at least one chunk. -/
def splitOnCharList (c : Char) : List Char → List (List Char)
  | [] => [[]]
  | x :: xs =>
    if x = c then [] :: splitOnCharList c xs
    else
      match splitOnCharList c xs with
      | [] => [[x]]
      | h :: t => (x :: h) :: t

/-- Go `strings.Split` with a one-character separator. -/
def goSplitChar (s : String) (c : Char) : List String :=
  (splitOnCharList c s.data).map String.mk

/-- Source `EndpointInfo.Config` from the model package: retry / action timing strings. -/
structure EndpointTimes where
  actionDuration : String := ""
  retryTimeOut : String := ""
deriving Repr, DecidableEq

/-- Source `EndpointInfo` from the model package: one upstream endpoint. -/
structure EndpointInfo where
  endpoint : String := ""
  config : EndpointTimes := {}
deriving Repr, DecidableEq

/-- A JSON value, standing for the values Go's `encoding/json` stores in an
`interface\x7b\x7d` slot (`production_endpoints` / `sandbox_endpoints`).
A JSON `null` decoded into an interface value yields the nil interface in Go,
which follows the same branch as an absent field; absent-or-null is
represented as `Option.none` at the use sites, so `null` appears only inside
arrays and objects. -/
inductive JValue where
  | null
  | bool (b : Bool)
  | num (n : Int)
  | str (s : String)
  | arr (xs : List JValue)
  | obj (fields : List (String × JValue))
deriving Repr

/-- Field lookup in a decoded JSON object (first occurrence of the key). -/
def jLookup (fields : List (String × JValue)) (key : String) : Option JValue :=
  (fields.find? (fun f => f.1 == key)).map (fun f => f.2)

/-- The string content of an optional JSON value; a non-string shape decodes
to the zero value `""`, as Go's `json.Unmarshal` leaves the field at its
zero value when the JSON type does not match. -/
def jStr : Option JValue → String
  | some (.str s) => s
  | _ => ""

/-- Decoding a JSON value into `EndpointInfo`, mirroring
`json.Unmarshal(jsonString, &s)` for the struct with fields
`url` and `config\x7bactionDuration, retryTimeOut\x7d`. -/
def decodeEndpointInfo : JValue → EndpointInfo
  | .obj fs =>
    { endpoint := jStr (jLookup fs "url"),
      config :=
        match jLookup fs "config" with
        | some (.obj cfs) =>
          { actionDuration := jStr (jLookup cfs "actionDuration"),
            retryTimeOut := jStr (jLookup cfs "retryTimeOut") }
        | _ => {} }
  | _ => {}

/-- The `EndpointConfig` part of `APIYaml.Data`: the raw polymorphic
endpoint fields plus the normalized lists. -/
structure EndpointConfigYaml where
  endpointType : String := ""
  rawProdEndpoints : Option JValue := none
  productionEndpoints : List EndpointInfo := []
  rawSandboxEndpoints : Option JValue := none
  sandBoxEndpoints : List EndpointInfo := []
deriving Repr

/-- The `Data` part of `APIYaml` (fields the analysed code reads). -/
structure APIYamlData where
  id : String := ""
  name : String := ""
  context : String := ""
  version : String := ""
  apiType : String := ""
  lifeCycleStatus : String := ""
  endpointImplementationType : String := ""
  organizationID : String := ""
  endpointConfig : EndpointConfigYaml := {}
deriving Repr

/-- Source `APIYaml` from the model package (the manifest). -/
structure APIYaml where
  data : APIYamlData := {}
deriving Repr

/-- Adapter configuration values read by the analysed code.
Modelled from the spec: `config.GetDefaultVhost(config.DefaultGatewayName)`
and `config.GetControlPlaneConnectedTenantDomain()` live outside the
analysed sources; only their returned strings matter here. -/
structure Config where
  defaultVhost : String := "localhost"
  defaultGatewayName : String := "Default"
  tenantDomain : String := "carbon.super"
deriving Repr, DecidableEq

/-- Source `FormatAndUpdateInfo`: uppercase `type` and `lifeCycleStatus`; default the
organization id from the control-plane tenant domain when empty. -/
def formatAndUpdateInfo (cfg : Config) (y : APIYaml) : APIYaml :=
  { y with data :=
    { y.data with
      apiType := goToUpper y.data.apiType,
      lifeCycleStatus := goToUpper y.data.lifeCycleStatus,
      organizationID :=
        if y.data.organizationID = "" then cfg.tenantDomain else y.data.organizationID } }

/-- One raw endpoint field resolved to a normalized list, mirroring the body of
`PopulateEndpointsInfo` for one of the two fields: a JSON object becomes a
one-element list, a JSON array is decoded elementwise in order, any other
present shape leaves the list as it was (`none` result).  A `JValue.null`
is the Go nil interface and takes the absent branch. -/
def resolveRawEndpoints : Option JValue → Option (List EndpointInfo)
  | some (.obj fs) => some [decodeEndpointInfo (.obj fs)]
  | some (.arr xs) => some (xs.map decodeEndpointInfo)
  | some .null => none
  | some _ => none
  | none => none

/-- Whether the else-branch of `PopulateEndpointsInfo` fires for this raw
field, i.e. the branch that logs the "No ... endpoints provided" warning:
a present value that is neither a JSON object nor a JSON array.
(`JValue.null` is the Go nil interface, which skips silently.) -/
def rawEndpointsWarn : Option JValue → Bool
  | some (.obj _) => false
  | some (.arr _) => false
  | some .null => false
  | some _ => true
  | none => false

/-- Whether `PopulateEndpointsInfo` rewrites the normalized list for this raw
field (object or array shape). -/
def rawEndpointsRewrites (r : Option JValue) : Bool :=
  (resolveRawEndpoints r).isSome

/-- Source `PopulateEndpointsInfo`: normalize the raw production and sandbox endpoint
fields into `ProductionEndpoints` / `SandBoxEndpoints`. -/
def populateEndpointsInfo (y : APIYaml) : APIYaml :=
  let ec := y.data.endpointConfig
  let prod := (resolveRawEndpoints ec.rawProdEndpoints).getD ec.productionEndpoints
  let sand := (resolveRawEndpoints ec.rawSandboxEndpoints).getD ec.sandBoxEndpoints
  { y with data :=
    { y.data with endpointConfig :=
      { ec with productionEndpoints := prod, sandBoxEndpoints := sand } } }

/-- Error message of the production-endpoint URL check in
`ValidateMandatoryFields`. -/
def prodEndpointErrMsg : String :=
  "relative urls or empty values are not supported for API production endpoints"

/-- Error message of the sandbox-endpoint URL check in
`ValidateMandatoryFields`. -/
def sandboxEndpointErrMsg : String :=
  "relative urls or empty values are not supported for API sandbox endpoints"

/-- The per-endpoint rejection test of `ValidateMandatoryFields`:
`strings.HasPrefix(ep.Endpoint, "/") || len(strings.TrimSpace(ep.Endpoint)) < 1`. -/
def badEndpointURL (ep : EndpointInfo) : Bool :=
  goStartsWith ep.endpoint "/" || (goTrimSpace ep.endpoint == "")

/-- Source `ValidateMandatoryFields`: aggregate empty-field message, then reject
relative or blank endpoint URLs (production first, then sandbox). -/
def validateMandatoryFields (y : APIYaml) : Except String Unit :=
  let d := y.data
  let apiName := if d.name = "" then "unknownAPIName" else d.name
  let apiVersion := if d.version = "" then "unknownAPIVersion" else d.version
  let errMsg :=
    (if d.name = "" then "API Name " else "")
    ++ (if d.version = "" then "API Version " else "")
    ++ (if d.context = "" then "API Context " else "")
    ++ (if d.endpointConfig.productionEndpoints.length < 1 ∧
           d.endpointConfig.sandBoxEndpoints.length < 1
        then "API production and sandbox endpoints " else "")
  if errMsg ≠ "" then
    .error (errMsg ++ "fields cannot be empty for " ++ apiName ++ " " ++ apiVersion)
  else if d.endpointConfig.productionEndpoints.any badEndpointURL then
    .error prodEndpointErrMsg
  else if d.endpointConfig.sandBoxEndpoints.any badEndpointURL then
    .error sandboxEndpointErrMsg
  else
    .ok ()

/-- Supported API type constant. Modelled from the spec: the `constants`
package is outside the analysed sources; the supported set is
\x7bHTTP, WS, WEBHOOK\x7d. -/
def constHTTP : String := "HTTP"

/-- Supported API type constant (see `constHTTP`). -/
def constWS : String := "WS"

/-- Supported API type constant (see `constHTTP`). -/
def constWEBHOOK : String := "WEBHOOK"

/-- Constant `constants.InlineEndpointType`. Modelled from the spec: inline
endpoint implementation is explicitly unsupported. -/
def constInlineEndpointType : String := "INLINE"

/-- Source `ValidateAPIType`: empty type means the manifest was missing; any type
outside the supported set is rejected. -/
def validateAPIType (y : APIYaml) : Except String Unit :=
  let apiType := y.data.apiType
  if apiType = "" then
    .error "could not find api.yaml or api.json"
  else if apiType ≠ constHTTP ∧ apiType ≠ constWS ∧ apiType ≠ constWEBHOOK then
    .error "API type is not currently supported with Choreo Connect"
  else
    .ok ()

/-- Source `NewAPIYaml` after the byte-level YAML/JSON decode (which is outside this
embedding): format, normalize endpoints, validate mandatory fields, reject
inline endpoint implementation. -/
def newAPIYaml (cfg : Config) (raw : APIYaml) : Except String APIYaml :=
  let y := populateEndpointsInfo (formatAndUpdateInfo cfg raw)
  match validateMandatoryFields y with
  | .error e => .error e
  | .ok _ =>
    if y.data.endpointImplementationType = constInlineEndpointType then
      .error "inline endpointImplementationType is not currently supported with Choreo Connect"
    else
      .ok y

/-- Source `model.Deployment`: one `(environment, vhost)` target of a project. -/
structure Deployment where
  displayOnDevportal : Bool := false
  deploymentVhost : String := ""
  deploymentEnvironment : String := ""
deriving Repr, DecidableEq

/-- Source `model.ProjectAPI` (the fields the analysed code reads).
Modelled from the spec: the struct itself is defined outside the analysed
sources; fields follow its uses in `apis_impl.go` and spec section 3.
`deployments = Option.none` models a Go nil slice (no
`deployment_environments.yaml`), distinct from a present empty list. -/
structure ProjectAPI where
  apiYaml : APIYaml := {}
  deployments : Option (List Deployment) := none
deriving Repr

/-- Source `extractAPIProject` after unzipping and per-file processing (both outside
this embedding): the manifest passes `NewAPIYaml` during
`processFileInsideProject`, and `ValidateAPIType` runs last. -/
def extractAPIProject (cfg : Config) (raw : ProjectAPI) : Except String ProjectAPI :=
  match newAPIYaml cfg raw.apiYaml with
  | .error e => .error e
  | .ok y =>
    match validateAPIType y with
    | .error e => .error e
    | .ok _ => .ok { raw with apiYaml := y }

/-- The record the deployment index keeps per `(vhost, api)` pair.
Modelled from the spec: `(vhost, orgId, apiId, version) → revision` plus the
name used by `isAPIExist`. -/
structure APIRecord where
  vhost : String
  apiID : String
  name : String
  version : String
  organizationID : String
deriving Repr, DecidableEq

/-- The xds deployment index state. Modelled from the spec:
`envIndex` records `(apiId, environment) → vhost` (which vhost serves the
API in an environment), `apiIndex` records the per-`(vhost, api)` entries
(section 4.4 steps 3 and 4). -/
structure IndexState where
  envIndex : List ((String × String) × String) := []
  apiIndex : List APIRecord := []
deriving Repr, DecidableEq

/-- Index lookup `xds.GetVhostOfAPI`. Modelled from the spec:
`getVhostOfAPI(apiId, env) → (vhost, exists)`. -/
def getVhostOfAPI (s : IndexState) (apiID env : String) : Option String :=
  (s.envIndex.find? (fun en => en.1 == (apiID, env))).map (fun en => en.2)

/-- Index lookup `xds.IsAPIExist`. Modelled from the spec:
`isAPIExist(vhost, apiId, name, version, orgId) → bool`. -/
def isAPIExist (s : IndexState) (vhost apiID name version orgID : String) : Bool :=
  s.apiIndex.any (fun r =>
    r.vhost == vhost && r.apiID == apiID && r.name == name &&
    r.version == version && r.organizationID == orgID)

/-- Index lookup `xds.GetAllEnvironments`. Modelled from the spec: the union of the
requested environments and the environments where the API is already
deployed under the same vhost. -/
def getAllEnvironments (s : IndexState) (apiID vhost : String)
    (requested : List String) : List String :=
  let existing :=
    (s.envIndex.filter (fun en => en.1.1 == apiID && en.2 == vhost)).map
      (fun en => en.1.2)
  requested ++ existing.filter (fun e => !(requested.contains e))

/-- Index mutation `xds.UpdateAPI`. Modelled from the spec: record
`(apiId, env) → vhost` for each given environment (superseding any prior
entry for that key), and record the `(vhost, api)` entry (superseding any
prior revision for the same `(vhost, apiId)`).  Emission of the
`DeployedRevision` acknowledgement is omitted: no analysed claim reads it. -/
def updateAPI (s : IndexState) (vhost : String) (p : ProjectAPI)
    (envs : List String) : IndexState :=
  let d := p.apiYaml.data
  { envIndex :=
      s.envIndex.filter (fun en => !(en.1.1 == d.id && envs.contains en.1.2))
        ++ envs.dedup.map (fun e => ((d.id, e), vhost)),
    apiIndex :=
      s.apiIndex.filter (fun r => !(r.vhost == vhost && r.apiID == d.id))
        ++ [⟨vhost, d.id, d.name, d.version, d.organizationID⟩] }

/-- Index mutation `xds.DeleteAPIsWithUUID`. Modelled from the spec: remove the
per-environment mappings of the API under the given vhost for the given
environments; when no environment remains under that vhost, evict the
`(vhost, api)` entry. -/
def deleteAPIsWithUUID (s : IndexState) (vhost apiID : String)
    (envs : List String) (orgID : String) : IndexState :=
  let envIndex :=
    s.envIndex.filter (fun en =>
      !(en.1.1 == apiID && envs.contains en.1.2 && en.2 == vhost))
  { envIndex := envIndex,
    apiIndex :=
      if envIndex.any (fun en => en.1.1 == apiID && en.2 == vhost) then s.apiIndex
      else s.apiIndex.filter (fun r => !(r.vhost == vhost && r.apiID == apiID)) }

/-- The sentinel error for a create against an existing deployment.
Modelled from the spec: `constants.AlreadyExists` is outside the analysed
sources; only its identity matters. -/
def alreadyExistsError : String := "AlreadyExists"

/-- The deployment list actually used by `validateAndUpdateXds`: when
`Deployments == nil`, a single default deployment is synthesized. -/
def effectiveDeployments (cfg : Config) (p : ProjectAPI) : List Deployment :=
  match p.deployments with
  | none => [⟨true, cfg.defaultVhost, cfg.defaultGatewayName⟩]
  | some ds => ds

/-- Appending a value to a string-keyed multimap held as an association list,
mirroring `m[k] = append(m[k], v)` on a Go map. -/
def addToMultimap (m : List (String × List String)) (k v : String) :
    List (String × List String) :=
  if m.any (fun e => e.1 == k) then
    m.map (fun e => if e.1 == k then (e.1, e.2 ++ [v]) else e)
  else
    m ++ [(k, [v])]

/-- The `vhostToEnvsMap` built by `validateAndUpdateXds` from the deployment
list (Go map iteration is modelled by first-insertion order). -/
def buildVhostToEnvsMap (ds : List Deployment) : List (String × List String) :=
  ds.foldl (fun m d => addToMultimap m d.deploymentVhost d.deploymentEnvironment) []

/-- Source `validateAndUpdateXds`: treat a nil override as create mode; without
override, fail with the `AlreadyExists` sentinel when the API exists on any
deployment vhost; otherwise update the index per vhost.  Returns the
(possibly unchanged) index state together with the call's result. -/
def validateAndUpdateXds (cfg : Config) (s : IndexState) (p : ProjectAPI)
    (override : Option Bool) : IndexState × Except String Unit :=
  let d := p.apiYaml.data
  let overrideValue :=
    match override with
    | none => false
    | some b => b
  let deployments := effectiveDeployments cfg p
  if !overrideValue &&
      deployments.any (fun dep =>
        isAPIExist s dep.deploymentVhost d.id d.name d.version d.organizationID) then
    (s, .error alreadyExistsError)
  else
    let m := buildVhostToEnvsMap deployments
    (m.foldl (fun acc e => updateAPI acc e.1 p e.2) s, .ok ())

/-- Source `ApplyAPIProjectInStandaloneMode`: extract, then validate and update. -/
def applyAPIProjectInStandaloneMode (cfg : Config) (s : IndexState)
    (raw : ProjectAPI) (override : Option Bool) : IndexState × Except String Unit :=
  match extractAPIProject cfg raw with
  | .error e => (s, .error e)
  | .ok proj => validateAndUpdateXds cfg s proj override

/-- One artifact iteration of `ProcessMountedAPIProjects`: the same
extraction/validation pipeline with override `false`; any error is logged
and the artifact skipped, leaving the index unchanged. -/
def processMountedAPIProject (cfg : Config) (s : IndexState)
    (raw : ProjectAPI) : IndexState :=
  match extractAPIProject cfg raw with
  | .error _ => s
  | .ok proj => (validateAndUpdateXds cfg s proj (some false)).1

/-- An index mutation issued by `ApplyAPIProjectFromAPIM`, recorded for the
ordering claims: an `xds.UpdateAPI` or an `xds.DeleteAPIsWithUUID` call. -/
inductive XdsOp where
  | update (vhost : String) (envs : List String)
  | delete (vhost : String) (envs : List String)
deriving Repr, DecidableEq

/-- Whether an operation is an `update`. -/
def XdsOp.isUpdate : XdsOp → Bool
  | .update _ _ => true
  | .delete _ _ => false

/-- Whether an operation is a `delete`. -/
def XdsOp.isDelete : XdsOp → Bool
  | .update _ _ => false
  | .delete _ _ => true

/-- Accumulator of the `ApplyAPIProjectFromAPIM` loops: current index state,
the `vhostsToRemove` map, and — as instrumentation for the temporal claims —
the list of issued index operations and the trace of index states (initial
state first, then the state after each operation). -/
structure ApplyAcc where
  state : IndexState
  toRemove : List (String × List String)
  ops : List XdsOp
  trace : List IndexState
deriving Repr

/-- The body of the inner environment loop of `ApplyAPIProjectFromAPIM`:
when the API is already deployed to this environment under a different
vhost, record `(existingVhost, env)` in `vhostsToRemove`. -/
def collectRemovals (s : IndexState) (apiID vhost : String)
    (environments : List String) (m : List (String × List String)) :
    List (String × List String) :=
  environments.foldl (fun m env =>
    match getVhostOfAPI s apiID env with
    | some existingVhost =>
      if vhost ≠ existingVhost then addToMultimap m existingVhost env else m
    | none => m) m

/-- One iteration of the first (apply) loop of `ApplyAPIProjectFromAPIM`:
collect removals against the current index, then update the API under this
vhost for all its environments. -/
def apimApplyStep (p : ProjectAPI) (acc : ApplyAcc) (entry : String × List String) :
    ApplyAcc :=
  let d := p.apiYaml.data
  let toRemove := collectRemovals acc.state d.id entry.1 entry.2 acc.toRemove
  let allEnvs := getAllEnvironments acc.state d.id entry.1 entry.2
  let s := updateAPI acc.state entry.1 p allEnvs
  { state := s, toRemove := toRemove,
    ops := acc.ops ++ [.update entry.1 allEnvs],
    trace := acc.trace ++ [s] }

/-- One iteration of the second (undeploy) loop of `ApplyAPIProjectFromAPIM`:
an empty vhost is skipped; otherwise the old `(vhost, environments)`
placement is deleted. -/
def apimRemoveStep (p : ProjectAPI) (acc : ApplyAcc) (entry : String × List String) :
    ApplyAcc :=
  if entry.1 = "" then acc
  else
    let d := p.apiYaml.data
    let s := deleteAPIsWithUUID acc.state entry.1 d.id entry.2 d.organizationID
    { state := s, toRemove := acc.toRemove,
      ops := acc.ops ++ [.delete entry.1 entry.2],
      trace := acc.trace ++ [s] }

/-- The index-mutating core of `ApplyAPIProjectFromAPIM` (after extraction):
the apply loop over `vhostToEnvsMap`, then the undeploy loop over the
collected `vhostsToRemove`. -/
def applyAPIProjectFromAPIMCore (p : ProjectAPI)
    (vhostToEnvsMap : List (String × List String)) (s₀ : IndexState) : ApplyAcc :=
  let acc := vhostToEnvsMap.foldl (apimApplyStep p)
    { state := s₀, toRemove := [], ops := [], trace := [s₀] }
  acc.toRemove.foldl (apimRemoveStep p) acc

/-- Source `ApplyAPIProjectFromAPIM`: extract the project, then run the apply and
undeploy loops.  Returns the final index state and the call's result. -/
def applyAPIProjectFromAPIM (cfg : Config) (s₀ : IndexState) (raw : ProjectAPI)
    (vhostToEnvsMap : List (String × List String)) :
    IndexState × Except String Unit :=
  match extractAPIProject cfg raw with
  | .error e => (s₀, .error e)
  | .ok proj => ((applyAPIProjectFromAPIMCore proj vhostToEnvsMap s₀).state, .ok ())

/-- The query filter key of `ListApis`. Modelled from the spec: the
`apiTypeFilterKey` constant is outside the analysed sources; queries have
the form `type:<value>`. -/
def apiTypeFilterKey : String := "type"

/-- Observable outcome of the query handling in `ListApis`. -/
inductive ListOutcome where
  | unfiltered
  | filtered (apiType : String)
  | panicked
deriving Repr, DecidableEq

/-- The query handling of `ListApis`: split the query on `:`; when the first
component is the filter key, read the second component (`queryPair[1]`) —
which panics with an index-out-of-range when the query has no `:` — and
filter by its uppercase; otherwise return the unfiltered list. -/
def listApisQuery (query : Option String) : ListOutcome :=
  match query with
  | none => .unfiltered
  | some q =>
    match goSplitChar q ':' with
    | k :: rest =>
      if k = apiTypeFilterKey then
        match rest with
        | v :: _ => .filtered (goToUpper v)
        | [] => .panicked
      else .unfiltered
    | [] => .unfiltered

/-! General list helpers -/

/-- Lemma: `find?` is unaffected by filtering with a predicate implied by the query. -/
theorem find?_filter_of_imp {α : Type} {q p : α → Bool} {l : List α}
    (h : ∀ x, q x = true → p x = true) : (l.filter p).find? q = l.find? q := by
  induction l with
  | nil => rfl
  | cons a as ih =>
    by_cases hq : q a = true
    · rw [List.filter_cons, if_pos (h a hq)]
      simp [List.find?, hq, ih]
    · rw [List.filter_cons]
      by_cases hp : p a = true
      · rw [if_pos hp]
        simp only [List.find?]
        rw [Bool.eq_false_iff.mpr hq]
        simpa using ih
      · rw [if_neg hp]
        rw [ih]
        conv_rhs => rw [List.find?]
        rw [Bool.eq_false_iff.mpr hq]

/-- A found element that survives a filter is still the first one found. -/
theorem find?_filter_of_found {α : Type} {q p : α → Bool} {l : List α} {x : α}
    (hf : l.find? q = some x) (hp : p x = true) : (l.filter p).find? q = some x := by
  induction l with
  | nil => simp at hf
  | cons a as ih =>
    by_cases hq : q a = true
    · have hax : a = x := by
        rw [List.find?_cons_of_pos as hq] at hf
        exact Option.some.inj hf
      subst hax
      rw [List.filter_cons, if_pos hp, List.find?_cons_of_pos _ hq]
    · rw [List.find?_cons_of_neg as hq] at hf
      rw [List.filter_cons]
      by_cases hpa : p a = true
      · rw [if_pos hpa, List.find?_cons_of_neg _ hq]
        exact ih hf
      · rw [if_neg hpa]
        exact ih hf

/-- Lemma: `find?` only depends on the pointwise behaviour of the predicate. -/
theorem find?_ext {α : Type} {p q : α → Bool} (l : List α)
    (h : ∀ x, p x = q x) : l.find? p = l.find? q := by
  induction l with
  | nil => rfl
  | cons a as ih =>
    by_cases hp : p a = true
    · rw [List.find?_cons_of_pos as hp, List.find?_cons_of_pos as ((h a) ▸ hp)]
    · rw [List.find?_cons_of_neg as hp, List.find?_cons_of_neg as ((h a) ▸ hp), ih]

/-- The first element found by a `== a` test in a list containing `a` is `a`. -/
theorem find?_beq_self_of_mem {α : Type} [DecidableEq α] {a : α} {l : List α}
    (h : a ∈ l) : l.find? (fun x => x == a) = some a := by
  induction l with
  | nil => simp at h
  | cons b bs ih =>
    by_cases hb : b = a
    · subst hb
      simp [List.find?]
    · have hmem : a ∈ bs := by
        rcases List.mem_cons.mp h with h1 | h1
        · exact absurd h1.symm hb
        · exact h1
      rw [List.find?_cons_of_neg bs (by simpa using hb)]
      exact ih hmem

/-! Index lemmas -/

/-- Well-formedness of the index: environment keys are unique.  The real
index stores the per-environment mapping in a Go map, so every reachable
state satisfies this. -/
def envKeysNodup (s : IndexState) : Prop :=
  (s.envIndex.map Prod.fst).Nodup

/-- In an association list with unique keys, a member is what `find?` by its
key returns. -/
theorem assoc_find?_of_mem {κ ν : Type} [BEq κ] [LawfulBEq κ] {l : List (κ × ν)}
    {k : κ} {x : κ × ν}
    (hn : (l.map Prod.fst).Nodup) (hx : x ∈ l) (hk : x.1 = k) :
    l.find? (fun en => en.1 == k) = some x := by
  induction l with
  | nil => simp at hx
  | cons a as ih =>
    rcases List.mem_cons.mp hx with h1 | h1
    · subst h1
      exact List.find?_cons_of_pos as (by simpa using hk)
    · have hkey : a.1 ≠ k := by
        intro hak
        have hmm : k ∈ as.map Prod.fst := List.mem_map.mpr ⟨x, h1, hk⟩
        rw [List.map_cons, List.nodup_cons, hak] at hn
        exact hn.1 hmm
      rw [List.find?_cons_of_neg as (by simpa using hkey)]
      exact ih (by simpa using (List.nodup_cons.mp (by simpa using hn)).2) h1

theorem getVhostOfAPI_of_mem {s : IndexState} {apiID env vhost : String}
    (hWF : envKeysNodup s) (h : ((apiID, env), vhost) ∈ s.envIndex) :
    getVhostOfAPI s apiID env = some vhost := by
  unfold getVhostOfAPI
  rw [assoc_find?_of_mem hWF h (show ((apiID, env), vhost).1 = (apiID, env) from rfl)]
  rfl

/-- Effect of `updateAPI` on the vhost lookup of the same API. -/
theorem getVhostOfAPI_updateAPI (s : IndexState) (vhost : String) (p : ProjectAPI)
    (envs : List String) (env : String) :
    getVhostOfAPI (updateAPI s vhost p envs) p.apiYaml.data.id env =
      if envs.contains env then some vhost
      else getVhostOfAPI s p.apiYaml.data.id env := by
  unfold getVhostOfAPI updateAPI
  simp only
  rw [List.find?_append]
  by_cases hmem : envs.contains env
  · rw [if_pos hmem]
    have h1 : (s.envIndex.filter
        (fun en => !(en.1.1 == p.apiYaml.data.id && envs.contains en.1.2))).find?
        (fun en => en.1 == (p.apiYaml.data.id, env)) = none := by
      rw [List.find?_eq_none]
      intro x hx hq
      have hx2 := (List.mem_filter.mp hx).2
      have hkey : x.1 = (p.apiYaml.data.id, env) := by simpa using hq
      rw [hkey] at hx2
      simp only [Bool.not_eq_true', Bool.and_eq_false_iff] at hx2
      rcases hx2 with hx2 | hx2
      · simp at hx2
      · rw [hmem] at hx2
        simp at hx2
    rw [h1]
    have h2 : (envs.dedup.map (fun e => ((p.apiYaml.data.id, e), vhost))).find?
        (fun en => en.1 == (p.apiYaml.data.id, env)) =
        some ((p.apiYaml.data.id, env), vhost) := by
      rw [List.find?_map]
      have hc : envs.dedup.find?
          ((fun en => en.1 == (p.apiYaml.data.id, env)) ∘
            (fun e => ((p.apiYaml.data.id, e), vhost))) =
          envs.dedup.find? (fun e => e == env) := by
        apply find?_ext
        intro x
        simp [Function.comp]
      rw [hc, find?_beq_self_of_mem (List.mem_dedup.mpr (by simpa using hmem))]
      rfl
    rw [h2]
    rfl
  · rw [if_neg hmem]
    have h2 : (envs.dedup.map (fun e => ((p.apiYaml.data.id, e), vhost))).find?
        (fun en => en.1 == (p.apiYaml.data.id, env)) = none := by
      rw [List.find?_eq_none]
      intro x hx hq
      rcases List.mem_map.mp hx with ⟨e, he, hfe⟩
      have hkey : x.1 = (p.apiYaml.data.id, env) := by simpa using hq
      rw [← hfe] at hkey
      have : e = env := by
        have := congrArg Prod.snd hkey
        simpa using this
      subst this
      exact hmem (by simpa using List.mem_dedup.mp he)
    rw [h2]
    have h1 : (s.envIndex.filter
        (fun en => !(en.1.1 == p.apiYaml.data.id && envs.contains en.1.2))).find?
        (fun en => en.1 == (p.apiYaml.data.id, env)) =
        s.envIndex.find? (fun en => en.1 == (p.apiYaml.data.id, env)) := by
      apply find?_filter_of_imp
      intro x hq
      have hkey : x.1 = (p.apiYaml.data.id, env) := by simpa using hq
      simp only [hkey]
      simp
      simpa using hmem
    rw [h1]
    cases s.envIndex.find? (fun en => en.1 == (p.apiYaml.data.id, env)) <;> rfl

/-- Deleting environments that do not include `env` does not change the
vhost lookup of `env`. -/
theorem getVhostOfAPI_deleteAPIsWithUUID_of_not_mem (s : IndexState)
    (vhost apiID : String) (envs : List String) (orgID : String) (env : String)
    (h : env ∉ envs) :
    getVhostOfAPI (deleteAPIsWithUUID s vhost apiID envs orgID) apiID env =
      getVhostOfAPI s apiID env := by
  unfold getVhostOfAPI deleteAPIsWithUUID
  simp only
  congr 1
  apply find?_filter_of_imp
  intro x hq
  have hkey : x.1 = (apiID, env) := by simpa using hq
  simp only [hkey]
  simp
  exact Or.inl h

/-- Deleting under a different vhost does not change the vhost lookup. -/
theorem getVhostOfAPI_deleteAPIsWithUUID_of_ne (s : IndexState)
    (vhost apiID : String) (envs : List String) (orgID : String) (env u : String)
    (hv : getVhostOfAPI s apiID env = some u) (hne : u ≠ vhost) :
    getVhostOfAPI (deleteAPIsWithUUID s vhost apiID envs orgID) apiID env =
      some u := by
  unfold getVhostOfAPI at hv ⊢
  unfold deleteAPIsWithUUID
  simp only
  rcases Option.map_eq_some'.mp hv with ⟨x, hx, hx2⟩
  rw [find?_filter_of_found hx]
  · simpa using hx2
  · simp only [Bool.not_eq_true']
    rw [Bool.and_eq_false_iff]
    right
    rw [hx2]
    simpa using hne

/-- Lemma: `updateAPI` preserves unique environment keys. -/
theorem envKeysNodup_updateAPI (s : IndexState) (vhost : String) (p : ProjectAPI)
    (envs : List String) (hWF : envKeysNodup s) :
    envKeysNodup (updateAPI s vhost p envs) := by
  unfold envKeysNodup updateAPI at *
  simp only [List.map_append]
  apply List.Nodup.append
  · exact ((List.filter_sublist s.envIndex).map Prod.fst).nodup hWF
  · rw [List.map_map]
    exact (envs.nodup_dedup).map (by intro a b hab; simpa using hab)
  · rw [List.disjoint_left]
    intro k hk1 hk2
    rcases List.mem_map.mp hk1 with ⟨x, hx, hfx⟩
    have hx2 := (List.mem_filter.mp hx).2
    rw [List.map_map] at hk2
    rcases List.mem_map.mp hk2 with ⟨e, he, hfe⟩
    have hkey : x.1 = (p.apiYaml.data.id, e) := by
      rw [hfx, ← hfe]
      rfl
    rw [hkey] at hx2
    simp only [Bool.not_eq_true', Bool.and_eq_false_iff] at hx2
    rcases hx2 with hx2 | hx2
    · simp at hx2
    · have hmm : e ∈ envs := by simpa using List.mem_dedup.mp he
      simp [hmm] at hx2

/-- Lemma: `deleteAPIsWithUUID` preserves unique environment keys. -/
theorem envKeysNodup_deleteAPIsWithUUID (s : IndexState) (vhost apiID : String)
    (envs : List String) (orgID : String) (hWF : envKeysNodup s) :
    envKeysNodup (deleteAPIsWithUUID s vhost apiID envs orgID) := by
  unfold envKeysNodup deleteAPIsWithUUID at *
  exact ((List.filter_sublist s.envIndex).map Prod.fst).nodup hWF

/-- Requested environments are always in `getAllEnvironments`. -/
theorem mem_getAllEnvironments_of_requested (s : IndexState) (apiID vhost : String)
    (requested : List String) (env : String) (h : env ∈ requested) :
    env ∈ getAllEnvironments s apiID vhost requested := by
  unfold getAllEnvironments
  exact List.mem_append.mpr (Or.inl h)

/-- In a well-formed index, every member of `getAllEnvironments` is either
requested or currently served by this vhost. -/
theorem mem_getAllEnvironments_elim {s : IndexState} {apiID vhost : String}
    {requested : List String} {env : String} (hWF : envKeysNodup s)
    (h : env ∈ getAllEnvironments s apiID vhost requested) :
    env ∈ requested ∨ getVhostOfAPI s apiID env = some vhost := by
  unfold getAllEnvironments at h
  rcases List.mem_append.mp h with h1 | h1
  · exact Or.inl h1
  · right
    have h2 := (List.mem_filter.mp h1).1
    rcases List.mem_map.mp h2 with ⟨en, hen, hfen⟩
    have hen2 := (List.mem_filter.mp hen).2
    have hid : en.1.1 = apiID := by
      have := hen2
      simp only [Bool.and_eq_true, beq_iff_eq] at this
      exact this.1
    have hvh : en.2 = vhost := by
      simp only [Bool.and_eq_true, beq_iff_eq] at hen2
      exact hen2.2
    have hmem : ((apiID, env), vhost) ∈ s.envIndex := by
      have hsh : en = ((apiID, env), vhost) := by
        rcases en with ⟨⟨a, b⟩, c⟩
        simp only at hid hvh hfen
        rw [hid, hvh, hfen]
      rw [← hsh]
      exact (List.mem_filter.mp hen).1
    exact getVhostOfAPI_of_mem hWF hmem

/-- The remove-map invariant for a requested pair `(v, env)`: no entry of
`vhostsToRemove` schedules environment `env` for deletion under vhost `v`. -/
def RMOk (v env : String) (m : List (String × List String)) : Prop :=
  ∀ w lst, (w, lst) ∈ m → env ∈ lst → w ≠ v

theorem RMOk_nil (v env : String) : RMOk v env [] := by
  intro w lst hmem
  simp at hmem

theorem RMOk_addToMultimap {v env : String} {m : List (String × List String)}
    {k x : String} (hm : RMOk v env m) (hx : x = env → k ≠ v) :
    RMOk v env (addToMultimap m k x) := by
  intro w lst hmem hin
  unfold addToMultimap at hmem
  by_cases hany : m.any (fun e => e.1 == k) = true
  · rw [if_pos hany] at hmem
    rcases List.mem_map.mp hmem with ⟨e, he, hfe⟩
    by_cases hek : e.1 = k
    · rw [if_pos (by simpa using hek)] at hfe
      have hw : w = e.1 := by
        have := congrArg Prod.fst hfe
        simpa using this.symm
      have hlst : lst = e.2 ++ [x] := by
        have := congrArg Prod.snd hfe
        simpa using this.symm
      rcases List.mem_append.mp (hlst ▸ hin) with h1 | h1
      · have hv2 : e.1 ≠ v := hm e.1 e.2 he h1
        rw [hw]
        exact hv2
      · have hxe : x = env := by
          rcases List.mem_singleton.mp h1 with h2
          exact h2.symm
        rw [hw, hek]
        exact hx hxe
    · rw [if_neg (by simpa using hek)] at hfe
      exact hm w lst (hfe ▸ he) hin
  · rw [if_neg hany] at hmem
    rcases List.mem_append.mp hmem with h1 | h1
    · exact hm w lst h1 hin
    · have h2 := List.mem_singleton.mp h1
      have hw : w = k := (congrArg Prod.fst h2)
      have hlst : lst = [x] := (congrArg Prod.snd h2)
      have hxe : x = env := (List.mem_singleton.mp (hlst ▸ hin)).symm
      exact hw ▸ hx hxe

theorem RMOk_collectRemovals {v env : String} (s : IndexState)
    (apiID vhost : String) (environments : List String)
    {m : List (String × List String)}
    (hcond : ∀ e ∈ environments, e = env → vhost = v) (hm : RMOk v env m) :
    RMOk v env (collectRemovals s apiID vhost environments m) := by
  unfold collectRemovals
  induction environments generalizing m with
  | nil => exact hm
  | cons e es ih =>
    simp only [List.foldl_cons]
    apply ih
    · intro e' he' hev
      exact hcond e' (List.mem_cons_of_mem e he') hev
    · cases hfind : getVhostOfAPI s apiID e with
      | none => exact hm
      | some existingVhost =>
        simp only
        by_cases hne : vhost ≠ existingVhost
        · rw [if_pos hne]
          apply RMOk_addToMultimap hm
          intro hev
          have := hcond e (List.mem_cons_self e es) hev
          rw [← this]
          exact fun hh => hne hh.symm
        · rw [if_neg hne]
          exact hm

theorem apimApplyStep_state (p : ProjectAPI) (acc : ApplyAcc)
    (ent : String × List String) :
    (apimApplyStep p acc ent).state =
      updateAPI acc.state ent.1 p
        (getAllEnvironments acc.state p.apiYaml.data.id ent.1 ent.2) := rfl

theorem apimApplyStep_toRemove (p : ProjectAPI) (acc : ApplyAcc)
    (ent : String × List String) :
    (apimApplyStep p acc ent).toRemove =
      collectRemovals acc.state p.apiYaml.data.id ent.1 ent.2 acc.toRemove := rfl

theorem apimApplyStep_ops (p : ProjectAPI) (acc : ApplyAcc)
    (ent : String × List String) :
    (apimApplyStep p acc ent).ops =
      acc.ops ++ [.update ent.1
        (getAllEnvironments acc.state p.apiYaml.data.id ent.1 ent.2)] := rfl

theorem apimApplyStep_trace (p : ProjectAPI) (acc : ApplyAcc)
    (ent : String × List String) :
    (apimApplyStep p acc ent).trace = acc.trace ++ [(apimApplyStep p acc ent).state] := rfl

/-- Effect of one apply-loop iteration whose entry does not request `env`:
the vhost of `env` is unchanged, well-formedness and the remove-map
invariant are preserved, and one state is appended to the trace. -/
theorem apimApplyStep_not_requested (p : ProjectAPI) (v env : String)
    (acc : ApplyAcc) (ent : String × List String)
    (hreq : env ∉ ent.2) (hWF : envKeysNodup acc.state)
    (hrm : RMOk v env acc.toRemove) :
    envKeysNodup (apimApplyStep p acc ent).state ∧
    getVhostOfAPI (apimApplyStep p acc ent).state p.apiYaml.data.id env =
      getVhostOfAPI acc.state p.apiYaml.data.id env ∧
    RMOk v env (apimApplyStep p acc ent).toRemove := by
  refine ⟨?_, ?_, ?_⟩
  · rw [apimApplyStep_state]
    exact envKeysNodup_updateAPI _ _ _ _ hWF
  · rw [apimApplyStep_state, getVhostOfAPI_updateAPI]
    by_cases hc : (getAllEnvironments acc.state p.apiYaml.data.id ent.1 ent.2).contains env = true
    · rw [if_pos hc]
      rcases mem_getAllEnvironments_elim hWF (by simpa using hc) with h1 | h1
      · exact absurd h1 hreq
      · exact h1.symm
    · rw [if_neg hc]
  · rw [apimApplyStep_toRemove]
    apply RMOk_collectRemovals
    · intro e he hev
      exact absurd (hev ▸ he) hreq
    · exact hrm

/-- Effect of the apply-loop iteration at the entry requesting `env`:
afterwards `env` is served by this entry's vhost. -/
theorem apimApplyStep_requested (p : ProjectAPI) (v env : String)
    (acc : ApplyAcc) (ent : String × List String)
    (he : env ∈ ent.2) (hv : ent.1 = v) (hWF : envKeysNodup acc.state)
    (hrm : RMOk v env acc.toRemove) :
    envKeysNodup (apimApplyStep p acc ent).state ∧
    getVhostOfAPI (apimApplyStep p acc ent).state p.apiYaml.data.id env = some v ∧
    RMOk v env (apimApplyStep p acc ent).toRemove := by
  refine ⟨?_, ?_, ?_⟩
  · rw [apimApplyStep_state]
    exact envKeysNodup_updateAPI _ _ _ _ hWF
  · rw [apimApplyStep_state, getVhostOfAPI_updateAPI]
    rw [if_pos (by
      simpa using mem_getAllEnvironments_of_requested acc.state p.apiYaml.data.id ent.1 ent.2 env he)]
    rw [hv]
  · rw [apimApplyStep_toRemove]
    apply RMOk_collectRemovals
    · intro e hee hev
      exact hv
    · exact hrm

/-- Folding the apply loop over entries none of which requests `env` keeps
the vhost of `env`, well-formedness, and the remove-map invariant; every
state appended to the trace also has that vhost. -/
theorem apimApplyFold_keep (p : ProjectAPI) (v env : String) (val : Option String) :
    ∀ (entries : List (String × List String)) (acc : ApplyAcc),
    (∀ ent ∈ entries, env ∉ ent.2) → envKeysNodup acc.state →
    getVhostOfAPI acc.state p.apiYaml.data.id env = val →
    RMOk v env acc.toRemove →
    envKeysNodup (entries.foldl (apimApplyStep p) acc).state ∧
    getVhostOfAPI (entries.foldl (apimApplyStep p) acc).state p.apiYaml.data.id env = val ∧
    RMOk v env (entries.foldl (apimApplyStep p) acc).toRemove ∧
    ∀ t ∈ (entries.foldl (apimApplyStep p) acc).trace,
      t ∈ acc.trace ∨ getVhostOfAPI t p.apiYaml.data.id env = val := by
  intro entries
  induction entries with
  | nil =>
    intro acc hreq hWF hval hrm
    exact ⟨hWF, hval, hrm, fun t ht => Or.inl ht⟩
  | cons a as ih =>
    intro acc hreq hWF hval hrm
    have hstep := apimApplyStep_not_requested p v env acc a
      (hreq a (List.mem_cons_self a as)) hWF hrm
    have hrest := ih (apimApplyStep p acc a)
      (fun ent hent => hreq ent (List.mem_cons_of_mem a hent))
      hstep.1 (hstep.2.1.trans hval) hstep.2.2
    simp only [List.foldl_cons]
    refine ⟨hrest.1, hrest.2.1, hrest.2.2.1, ?_⟩
    intro t ht
    rcases hrest.2.2.2 t ht with h1 | h1
    · rw [apimApplyStep_trace] at h1
      rcases List.mem_append.mp h1 with h2 | h2
      · exact Or.inl h2
      · right
        rw [List.mem_singleton.mp h2]
        exact hstep.2.1.trans hval
    · exact Or.inr h1

theorem apimRemoveStep_skip (p : ProjectAPI) (acc : ApplyAcc)
    (ent : String × List String) (h : ent.1 = "") :
    apimRemoveStep p acc ent = acc := by
  unfold apimRemoveStep
  rw [if_pos h]

theorem apimRemoveStep_state (p : ProjectAPI) (acc : ApplyAcc)
    (ent : String × List String) (h : ¬ ent.1 = "") :
    (apimRemoveStep p acc ent).state =
      deleteAPIsWithUUID acc.state ent.1 p.apiYaml.data.id ent.2
        p.apiYaml.data.organizationID := by
  unfold apimRemoveStep
  rw [if_neg h]

theorem apimRemoveStep_trace (p : ProjectAPI) (acc : ApplyAcc)
    (ent : String × List String) (h : ¬ ent.1 = "") :
    (apimRemoveStep p acc ent).trace = acc.trace ++ [(apimRemoveStep p acc ent).state] := by
  unfold apimRemoveStep
  rw [if_neg h]

/-- Folding the undeploy loop over a remove map that respects the invariant
for `(v, env)` keeps `env` served by `v`, in the final state and in every
appended trace state. -/
theorem apimRemoveFold_keep (p : ProjectAPI) (v env : String) :
    ∀ (rm : List (String × List String)) (acc : ApplyAcc),
    RMOk v env rm →
    getVhostOfAPI acc.state p.apiYaml.data.id env = some v →
    getVhostOfAPI (rm.foldl (apimRemoveStep p) acc).state p.apiYaml.data.id env = some v ∧
    ∀ t ∈ (rm.foldl (apimRemoveStep p) acc).trace,
      t ∈ acc.trace ∨ getVhostOfAPI t p.apiYaml.data.id env = some v := by
  intro rm
  induction rm with
  | nil =>
    intro acc hrm hval
    exact ⟨hval, fun t ht => Or.inl ht⟩
  | cons a as ih =>
    intro acc hrm hval
    have hrma : RMOk v env as := fun w lst hmem hin =>
      hrm w lst (List.mem_cons_of_mem a hmem) hin
    simp only [List.foldl_cons]
    by_cases hz : a.1 = ""
    · rw [apimRemoveStep_skip p acc a hz]
      exact ih acc hrma hval
    · have hstepval : getVhostOfAPI (apimRemoveStep p acc a).state
          p.apiYaml.data.id env = some v := by
        rw [apimRemoveStep_state p acc a hz]
        by_cases hmem : env ∈ a.2
        · have hnev : v ≠ a.1 := by
            have := hrm a.1 a.2 (by
              have : a = (a.1, a.2) := rfl
              rw [← this]
              exact List.mem_cons_self a as) hmem
            exact fun hh => this hh.symm
          exact getVhostOfAPI_deleteAPIsWithUUID_of_ne _ _ _ _ _ _ _ hval hnev
        · rw [getVhostOfAPI_deleteAPIsWithUUID_of_not_mem _ _ _ _ _ _ hmem]
          exact hval
      have hrest := ih (apimRemoveStep p acc a) hrma hstepval
      refine ⟨hrest.1, ?_⟩
      intro t ht
      rcases hrest.2 t ht with h1 | h1
      · rw [apimRemoveStep_trace p acc a hz] at h1
        rcases List.mem_append.mp h1 with h2 | h2
        · exact Or.inl h2
        · right
          rw [List.mem_singleton.mp h2]
          exact hstepval
      · exact Or.inr h1

/-- The apply loop only appends `update` operations. -/
theorem apimApplyFold_ops (p : ProjectAPI) :
    ∀ (entries : List (String × List String)) (acc : ApplyAcc),
    ∃ l, (entries.foldl (apimApplyStep p) acc).ops = acc.ops ++ l ∧
      ∀ op ∈ l, op.isUpdate = true := by
  intro entries
  induction entries with
  | nil =>
    intro acc
    exact ⟨[], by simp, by simp⟩
  | cons a as ih =>
    intro acc
    rcases ih (apimApplyStep p acc a) with ⟨l, hl, hup⟩
    refine ⟨.update a.1 (getAllEnvironments acc.state p.apiYaml.data.id a.1 a.2) :: l, ?_, ?_⟩
    · simp only [List.foldl_cons]
      rw [hl, apimApplyStep_ops]
      simp
    · intro op hop
      rcases List.mem_cons.mp hop with h1 | h1
      · rw [h1]
        rfl
      · exact hup op h1

/-- The undeploy loop only appends `delete` operations, never with an empty
vhost. -/
theorem apimRemoveFold_ops (p : ProjectAPI) :
    ∀ (rm : List (String × List String)) (acc : ApplyAcc),
    ∃ l, (rm.foldl (apimRemoveStep p) acc).ops = acc.ops ++ l ∧
      ∀ op ∈ l, ∃ w envs, op = .delete w envs ∧ w ≠ "" := by
  intro rm
  induction rm with
  | nil =>
    intro acc
    exact ⟨[], by simp, by simp⟩
  | cons a as ih =>
    intro acc
    rcases ih (apimRemoveStep p acc a) with ⟨l, hl, hdel⟩
    simp only [List.foldl_cons]
    by_cases hz : a.1 = ""
    · rw [apimRemoveStep_skip p acc a hz] at hl ⊢
      exact ⟨l, hl, hdel⟩
    · refine ⟨.delete a.1 a.2 :: l, ?_, ?_⟩
      · rw [hl]
        have hops : (apimRemoveStep p acc a).ops = acc.ops ++ [.delete a.1 a.2] := by
          unfold apimRemoveStep
          rw [if_neg hz]
        rw [hops]
        simp
      · intro op hop
        rcases List.mem_cons.mp hop with h1 | h1
        · exact ⟨a.1, a.2, h1, hz⟩
        · exact hdel op h1

/-- Each environment is requested under at most one vhost: distinct entries
of `vhostToEnvsMap` have disjoint environment lists. -/
def EnvsDisjoint (vmap : List (String × List String)) : Prop :=
  vmap.Pairwise (fun a b => ∀ e ∈ a.2, e ∉ b.2)

/-- Main invariant of the management-plane apply: when the environment lists
are pairwise disjoint, a requested pair `(v, env)` ends up (and, once
established, stays) with `env` served by `v`; every trace state serves `env`
either as initially or by `v`. -/
theorem applyCore_requested (p : ProjectAPI) (vmap : List (String × List String))
    (s₀ : IndexState) (v env : String) (L : List String)
    (hWF : envKeysNodup s₀) (hdisj : EnvsDisjoint vmap)
    (hmem : (v, L) ∈ vmap) (he : env ∈ L) :
    getVhostOfAPI (applyAPIProjectFromAPIMCore p vmap s₀).state
      p.apiYaml.data.id env = some v ∧
    ∀ t ∈ (applyAPIProjectFromAPIMCore p vmap s₀).trace,
      getVhostOfAPI t p.apiYaml.data.id env = getVhostOfAPI s₀ p.apiYaml.data.id env ∨
      getVhostOfAPI t p.apiYaml.data.id env = some v := by
  rcases List.append_of_mem hmem with ⟨pre, post, hsplit⟩
  subst hsplit
  unfold EnvsDisjoint at hdisj
  rw [List.pairwise_append] at hdisj
  rcases hdisj with ⟨hd1, hd2, hcross⟩
  rw [List.pairwise_cons] at hd2
  have hpre : ∀ ent ∈ pre, env ∉ ent.2 := by
    intro ent hent hc
    exact hcross ent hent (v, L) (List.mem_cons_self _ _) env hc he
  have hpost : ∀ ent ∈ post, env ∉ ent.2 := by
    intro ent hent hc
    exact hd2.1 ent hent env he hc
  unfold applyAPIProjectFromAPIMCore
  rw [List.foldl_append, List.foldl_cons]
  have hA := apimApplyFold_keep p v env
    (getVhostOfAPI s₀ p.apiYaml.data.id env) pre
    { state := s₀, toRemove := [], ops := [], trace := [s₀] }
    hpre hWF rfl (RMOk_nil v env)
  have hB := apimApplyStep_requested p v env
    (pre.foldl (apimApplyStep p) { state := s₀, toRemove := [], ops := [], trace := [s₀] })
    (v, L) he rfl hA.1 hA.2.2.1
  have hC := apimApplyFold_keep p v env (some v) post _ hpost hB.1 hB.2.1 hB.2.2
  have hD := apimRemoveFold_keep p v env _ _ hC.2.2.1 hC.2.1
  refine ⟨hD.1, ?_⟩
  intro t ht
  rcases hD.2 t ht with h1 | h1
  · rcases hC.2.2.2 t h1 with h2 | h2
    · rw [apimApplyStep_trace] at h2
      rcases List.mem_append.mp h2 with h3 | h3
      · rcases hA.2.2.2 t h3 with h4 | h4
        · left
          rw [List.mem_singleton.mp h4]
        · exact Or.inl h4
      · right
        rw [List.mem_singleton.mp h3]
        exact hB.2.1
    · exact Or.inr h2
  · exact Or.inr h1

/-- The operation list of the management-plane apply is all the updates,
in loop order, followed by all the deletes; no delete carries an empty
vhost. -/
theorem applyCore_ops (p : ProjectAPI) (vmap : List (String × List String))
    (s₀ : IndexState) :
    ∃ u d, (applyAPIProjectFromAPIMCore p vmap s₀).ops = u ++ d ∧
      (∀ op ∈ u, op.isUpdate = true) ∧
      (∀ op ∈ d, ∃ w envs, op = .delete w envs ∧ w ≠ "") := by
  unfold applyAPIProjectFromAPIMCore
  rcases apimApplyFold_ops p vmap
    { state := s₀, toRemove := [], ops := [], trace := [s₀] } with ⟨u, hu, hup⟩
  rcases apimRemoveFold_ops p
    (vmap.foldl (apimApplyStep p)
      { state := s₀, toRemove := [], ops := [], trace := [s₀] }).toRemove
    (vmap.foldl (apimApplyStep p)
      { state := s₀, toRemove := [], ops := [], trace := [s₀] }) with ⟨d, hd, hdel⟩
  refine ⟨u, d, ?_, hup, hdel⟩
  rw [hd, hu]
  simp

/-! Claim C1 -/

/-- C1 (amended): for every `ApplyAPIProjectFromAPIM` call whose requested
`vhostToEnvsMap` assigns each environment to at most one vhost, and every
requested pair `(v, env)`: if the API is already deployed in `env` under a
vhost different from `v`, then after the call the API is deployed in `env`
under `v` and no longer under the old vhost. -/
theorem claimC1_cross_vhost_relocation (p : ProjectAPI)
    (vmap : List (String × List String)) (s₀ : IndexState)
    (v env oldVhost : String) (L : List String)
    (hWF : envKeysNodup s₀) (hdisj : EnvsDisjoint vmap)
    (hmem : (v, L) ∈ vmap) (he : env ∈ L)
    (hold : getVhostOfAPI s₀ p.apiYaml.data.id env = some oldVhost)
    (hne : oldVhost ≠ v) :
    getVhostOfAPI (applyAPIProjectFromAPIMCore p vmap s₀).state
        p.apiYaml.data.id env = some v ∧
    getVhostOfAPI (applyAPIProjectFromAPIMCore p vmap s₀).state
        p.apiYaml.data.id env ≠ some oldVhost := by
  have h := (applyCore_requested p vmap s₀ v env L hWF hdisj hmem he).1
  refine ⟨h, ?_⟩
  rw [h]
  intro hc
  exact hne (Option.some.inj hc).symm

/-- C1 witness: concrete cross-vhost relocation (the spec's scenario 3):
index has API `A` on vhost `v1` in environment `e1`; applying with
`\x7bv2: [e1]\x7d` leaves `e1` served by `v2`, not `v1`. -/
theorem claimC1_cross_vhost_relocation_witness :
    getVhostOfAPI (applyAPIProjectFromAPIMCore
        { apiYaml := { data := { id := "A" } } } [("v2", ["e1"])]
        { envIndex := [(("A", "e1"), "v1")], apiIndex := [] }).state
        "A" "e1" = some "v2" ∧
    getVhostOfAPI (applyAPIProjectFromAPIMCore
        { apiYaml := { data := { id := "A" } } } [("v2", ["e1"])]
        { envIndex := [(("A", "e1"), "v1")], apiIndex := [] }).state
        "A" "e1" ≠ some "v1" :=
  claimC1_cross_vhost_relocation
    { apiYaml := { data := { id := "A" } } } [("v2", ["e1"])]
    { envIndex := [(("A", "e1"), "v1")], apiIndex := [] }
    "v2" "e1" "v1" ["e1"]
    (by unfold envKeysNodup; decide) (by unfold EnvsDisjoint; simp) (by simp) (by simp)
    rfl (by decide)

/-- C1 counterexample to the claim as stated: when two requested vhosts
share an environment (`\x7bv1: [e1], v2: [e1]\x7d`) and the API is initially
deployed in `e1` under `v0`, the pair `(v1, e1)` satisfies the claim's
hypothesis (deployed under a different vhost), yet after the call `e1` is
served by `v2`, not by the requested vhost `v1`. -/
theorem claimC1_counterexample :
    ("v1", ["e1"]) ∈ ([("v1", ["e1"]), ("v2", ["e1"])] : List (String × List String)) ∧
    "e1" ∈ (["e1"] : List String) ∧
    getVhostOfAPI { envIndex := [(("A", "e1"), "v0")], apiIndex := [] } "A" "e1" =
      some "v0" ∧
    "v0" ≠ "v1" ∧
    getVhostOfAPI (applyAPIProjectFromAPIMCore
        { apiYaml := { data := { id := "A" } } }
        [("v1", ["e1"]), ("v2", ["e1"])]
        { envIndex := [(("A", "e1"), "v0")], apiIndex := [] }).state
        "A" "e1" = some "v2" ∧
    (some "v2" : Option String) ≠ some "v1" :=
  ⟨by simp, by simp, rfl, by decide, rfl, by decide⟩

/-! Claim C6 -/

/-- C6 (amended): within one `ApplyAPIProjectFromAPIM` call every
`UpdateAPI` is issued before every `DeleteAPIsWithUUID`; and — provided each
environment is requested under at most one vhost — for every requested
environment that initially had the API deployed, no intermediate index
state leaves that environment without the API. -/
theorem claimC6_applies_precede_removes (p : ProjectAPI)
    (vmap : List (String × List String)) (s₀ : IndexState)
    (v env oldVhost : String) (L : List String)
    (hWF : envKeysNodup s₀) (hdisj : EnvsDisjoint vmap)
    (hmem : (v, L) ∈ vmap) (he : env ∈ L)
    (hold : getVhostOfAPI s₀ p.apiYaml.data.id env = some oldVhost) :
    (∃ u d, (applyAPIProjectFromAPIMCore p vmap s₀).ops = u ++ d ∧
      (∀ op ∈ u, op.isUpdate = true) ∧ (∀ op ∈ d, op.isDelete = true)) ∧
    (∀ t ∈ (applyAPIProjectFromAPIMCore p vmap s₀).trace,
      getVhostOfAPI t p.apiYaml.data.id env ≠ none) := by
  constructor
  · rcases applyCore_ops p vmap s₀ with ⟨u, d, hops, hu, hd⟩
    refine ⟨u, d, hops, hu, ?_⟩
    intro op hop
    rcases hd op hop with ⟨w, envs, heq, hw⟩
    rw [heq]
    rfl
  · intro t ht
    rcases (applyCore_requested p vmap s₀ v env L hWF hdisj hmem he).2 t ht with h1 | h1
    · rw [h1, hold]
      simp
    · rw [h1]
      simp

/-- C6 witness: a concrete relocation (`A` moves from `w1` to `w2` in `f1`)
in which the call's operations are an update followed by a delete and every
trace state keeps `f1` populated. -/
theorem claimC6_applies_precede_removes_witness :
    (∃ u d, (applyAPIProjectFromAPIMCore
        { apiYaml := { data := { id := "A" } } } [("w2", ["f1"])]
        { envIndex := [(("A", "f1"), "w1")], apiIndex := [] }).ops = u ++ d ∧
      (∀ op ∈ u, op.isUpdate = true) ∧ (∀ op ∈ d, op.isDelete = true)) ∧
    (∀ t ∈ (applyAPIProjectFromAPIMCore
        { apiYaml := { data := { id := "A" } } } [("w2", ["f1"])]
        { envIndex := [(("A", "f1"), "w1")], apiIndex := [] }).trace,
      getVhostOfAPI t "A" "f1" ≠ none) :=
  claimC6_applies_precede_removes
    { apiYaml := { data := { id := "A" } } } [("w2", ["f1"])]
    { envIndex := [(("A", "f1"), "w1")], apiIndex := [] }
    "w2" "f1" "w1" ["f1"]
    (by unfold envKeysNodup; decide) (by unfold EnvsDisjoint; simp) (by simp) (by simp) rfl

/-- C6 counterexample to the claim as stated: with two requested vhosts
sharing environment `e1` (`\x7bv2: [e1], v1: [e1]\x7d`) and the API initially on
`v1` in `e1`, the final state of the call — a member of its own state trace —
leaves `e1` with the API under no vhost at all, in particular under neither
the old vhost `v1` nor the requested vhost `v2` of the pair `(v2, e1)`. -/
theorem claimC6_counterexample :
    ("v2", ["e1"]) ∈ ([("v2", ["e1"]), ("v1", ["e1"])] : List (String × List String)) ∧
    getVhostOfAPI { envIndex := [(("A", "e1"), "v1")], apiIndex := [] } "A" "e1" =
      some "v1" ∧
    (applyAPIProjectFromAPIMCore
        { apiYaml := { data := { id := "A" } } }
        [("v2", ["e1"]), ("v1", ["e1"])]
        { envIndex := [(("A", "e1"), "v1")], apiIndex := [] }).state ∈
      (applyAPIProjectFromAPIMCore
        { apiYaml := { data := { id := "A" } } }
        [("v2", ["e1"]), ("v1", ["e1"])]
        { envIndex := [(("A", "e1"), "v1")], apiIndex := [] }).trace ∧
    getVhostOfAPI (applyAPIProjectFromAPIMCore
        { apiYaml := { data := { id := "A" } } }
        [("v2", ["e1"]), ("v1", ["e1"])]
        { envIndex := [(("A", "e1"), "v1")], apiIndex := [] }).state
        "A" "e1" = none :=
  ⟨by simp, rfl, by decide, rfl⟩

/-! Claim C7 -/

/-- C7: `ApplyAPIProjectFromAPIM` never issues a `DeleteAPIsWithUUID` with an
empty vhost: an empty-vhost entry of the computed remove set is skipped. -/
theorem claimC7_no_empty_vhost_delete (p : ProjectAPI)
    (vmap : List (String × List String)) (s₀ : IndexState) (envs : List String) :
    XdsOp.delete "" envs ∉ (applyAPIProjectFromAPIMCore p vmap s₀).ops := by
  intro hmem
  rcases applyCore_ops p vmap s₀ with ⟨u, d, hops, hu, hd⟩
  rw [hops] at hmem
  rcases List.mem_append.mp hmem with h1 | h1
  · have := hu _ h1
    simp [XdsOp.isUpdate] at this
  · rcases hd _ h1 with ⟨w, envs2, heq, hw⟩
    have hweq : "" = w := by
      have := congrArg (fun op : XdsOp =>
        match op with
        | .update a _ => a
        | .delete a _ => a) heq
      simpa using this
    exact hw hweq.symm

/-- C7 witness: a call whose computed remove set does contain the empty
vhost as a key (the API was recorded with an empty vhost in `e1`), and whose
operation list still contains no empty-vhost delete. -/
theorem claimC7_no_empty_vhost_delete_witness :
    (applyAPIProjectFromAPIMCore { apiYaml := { data := { id := "B" } } }
        [("v1", ["e1"])]
        { envIndex := [(("B", "e1"), "")], apiIndex := [] }).toRemove =
      [("", ["e1"])] ∧
    XdsOp.delete "" ["e1"] ∉ (applyAPIProjectFromAPIMCore
        { apiYaml := { data := { id := "B" } } } [("v1", ["e1"])]
        { envIndex := [(("B", "e1"), "")], apiIndex := [] }).ops :=
  ⟨rfl, claimC7_no_empty_vhost_delete
    { apiYaml := { data := { id := "B" } } } [("v1", ["e1"])]
    { envIndex := [(("B", "e1"), "")], apiIndex := [] } ["e1"]⟩

/-! Lemmas for the standalone create/override claim -/

/-- The `apiIndex` record `updateAPI` writes for a project under a vhost. -/
def projRecord (p : ProjectAPI) (vhost : String) : APIRecord :=
  ⟨vhost, p.apiYaml.data.id, p.apiYaml.data.name, p.apiYaml.data.version,
    p.apiYaml.data.organizationID⟩

theorem isAPIExist_of_projRecord_mem {s : IndexState} {p : ProjectAPI} {w : String}
    (h : projRecord p w ∈ s.apiIndex) :
    isAPIExist s w p.apiYaml.data.id p.apiYaml.data.name p.apiYaml.data.version
      p.apiYaml.data.organizationID = true := by
  unfold isAPIExist
  rw [List.any_eq_true]
  exact ⟨projRecord p w, h, by simp [projRecord]⟩

theorem projRecord_mem_updateAPI_self (s : IndexState) (p : ProjectAPI)
    (vhost : String) (envs : List String) :
    projRecord p vhost ∈ (updateAPI s vhost p envs).apiIndex := by
  unfold updateAPI
  simp [projRecord]

theorem projRecord_mem_updateAPI_of_ne {s : IndexState} {p : ProjectAPI}
    {w vhost : String} (hne : w ≠ vhost) (envs : List String)
    (h : projRecord p w ∈ s.apiIndex) :
    projRecord p w ∈ (updateAPI s vhost p envs).apiIndex := by
  unfold updateAPI
  simp only [List.mem_append]
  left
  rw [List.mem_filter]
  refine ⟨h, ?_⟩
  simp [projRecord, hne]

/-- Keys of `addToMultimap`: unchanged when the key is present, appended
otherwise. -/
theorem keys_addToMultimap (m : List (String × List String)) (k x : String) :
    (addToMultimap m k x).map Prod.fst =
      if m.any (fun e => e.1 == k) then m.map Prod.fst
      else m.map Prod.fst ++ [k] := by
  unfold addToMultimap
  by_cases hany : m.any (fun e => e.1 == k) = true
  · rw [if_pos hany, if_pos hany, List.map_map]
    apply List.map_congr_left
    intro e he
    by_cases hek : e.1 = k
    · simp only [Function.comp]
      rw [if_pos (by simpa using hek)]
    · simp only [Function.comp]
      rw [if_neg (by simpa using hek)]
  · rw [if_neg hany, if_neg hany, List.map_append]
    rfl

theorem mem_keys_addToMultimap_self (m : List (String × List String)) (k x : String) :
    k ∈ (addToMultimap m k x).map Prod.fst := by
  rw [keys_addToMultimap]
  by_cases hany : m.any (fun e => e.1 == k) = true
  · rw [if_pos hany]
    rcases List.any_eq_true.mp hany with ⟨e, he, heq⟩
    exact List.mem_map.mpr ⟨e, he, by simpa using heq⟩
  · rw [if_neg hany]
    simp

theorem mem_keys_addToMultimap_of_mem {m : List (String × List String)}
    {k' : String} (k x : String) (h : k' ∈ m.map Prod.fst) :
    k' ∈ (addToMultimap m k x).map Prod.fst := by
  rw [keys_addToMultimap]
  by_cases hany : m.any (fun e => e.1 == k) = true
  · rw [if_pos hany]
    exact h
  · rw [if_neg hany]
    exact List.mem_append.mpr (Or.inl h)

theorem keys_nodup_addToMultimap {m : List (String × List String)} (k x : String)
    (h : (m.map Prod.fst).Nodup) : ((addToMultimap m k x).map Prod.fst).Nodup := by
  rw [keys_addToMultimap]
  by_cases hany : m.any (fun e => e.1 == k) = true
  · rw [if_pos hany]
    exact h
  · rw [if_neg hany]
    rw [List.nodup_append]
    refine ⟨h, List.nodup_singleton k, ?_⟩
    rw [List.disjoint_left]
    intro a ha hb
    have hak : a = k := List.mem_singleton.mp hb
    rcases List.mem_map.mp ha with ⟨e, he, hfe⟩
    rw [List.any_eq_true] at hany
    exact hany ⟨e, he, by simp [hfe, hak]⟩

theorem mem_keys_buildVhostToEnvsMap_aux (ds : List Deployment) :
    ∀ (m : List (String × List String)),
    (∀ d ∈ ds, d.deploymentVhost ∈
      ((ds.foldl (fun m d => addToMultimap m d.deploymentVhost d.deploymentEnvironment) m).map
        Prod.fst)) ∧
    (∀ k, k ∈ m.map Prod.fst → k ∈
      ((ds.foldl (fun m d => addToMultimap m d.deploymentVhost d.deploymentEnvironment) m).map
        Prod.fst)) ∧
    ((m.map Prod.fst).Nodup →
      (((ds.foldl (fun m d => addToMultimap m d.deploymentVhost d.deploymentEnvironment) m).map
        Prod.fst).Nodup)) := by
  induction ds with
  | nil =>
    intro m
    exact ⟨by simp, fun k hk => hk, fun h => h⟩
  | cons a as ih =>
    intro m
    simp only [List.foldl_cons]
    refine ⟨?_, ?_, ?_⟩
    · intro d hd
      rcases List.mem_cons.mp hd with h1 | h1
      · subst h1
        exact (ih _).2.1 d.deploymentVhost (mem_keys_addToMultimap_self m _ _)
      · exact (ih _).1 d h1
    · intro k hk
      exact (ih _).2.1 k (mem_keys_addToMultimap_of_mem _ _ hk)
    · intro h
      exact (ih _).2.2 (keys_nodup_addToMultimap _ _ h)

/-- Every deployment's vhost is a key of the built `vhostToEnvsMap`. -/
theorem mem_keys_buildVhostToEnvsMap {ds : List Deployment} {d : Deployment}
    (h : d ∈ ds) : d.deploymentVhost ∈ (buildVhostToEnvsMap ds).map Prod.fst :=
  (mem_keys_buildVhostToEnvsMap_aux ds []).1 d h

/-- The built `vhostToEnvsMap` has unique keys, as a Go map does. -/
theorem keys_nodup_buildVhostToEnvsMap (ds : List Deployment) :
    ((buildVhostToEnvsMap ds).map Prod.fst).Nodup :=
  (mem_keys_buildVhostToEnvsMap_aux ds []).2.2 (by simp)

theorem projRecord_mem_foldl_of_no_key (p : ProjectAPI) {w : String} :
    ∀ (m : List (String × List String)) (s : IndexState),
    (∀ ent ∈ m, ent.1 ≠ w) → projRecord p w ∈ s.apiIndex →
    projRecord p w ∈ ((m.foldl (fun acc e => updateAPI acc e.1 p e.2) s).apiIndex) := by
  intro m
  induction m with
  | nil =>
    intro s hk h
    exact h
  | cons a as ih =>
    intro s hk h
    simp only [List.foldl_cons]
    apply ih
    · intro ent hent
      exact hk ent (List.mem_cons_of_mem a hent)
    · exact projRecord_mem_updateAPI_of_ne
        (fun hh => hk a (List.mem_cons_self a as) hh.symm) a.2 h

/-- After folding `updateAPI` over a unique-keyed `vhostToEnvsMap`, the
project's record is present under every key. -/
theorem projRecord_mem_foldl_updates (p : ProjectAPI) {w : String} :
    ∀ (m : List (String × List String)) (s : IndexState),
    (m.map Prod.fst).Nodup → w ∈ m.map Prod.fst →
    projRecord p w ∈ ((m.foldl (fun acc e => updateAPI acc e.1 p e.2) s).apiIndex) := by
  intro m
  induction m with
  | nil =>
    intro s hn hw
    simp at hw
  | cons a as ih =>
    intro s hn hw
    simp only [List.foldl_cons]
    rw [List.map_cons] at hw
    rcases List.mem_cons.mp hw with h1 | h1
    · subst h1
      apply projRecord_mem_foldl_of_no_key
      · intro ent hent hk
        rw [List.map_cons, List.nodup_cons] at hn
        exact hn.1 (hk ▸ List.mem_map.mpr ⟨ent, hent, rfl⟩)
      · exact projRecord_mem_updateAPI_self s p a.1 a.2
    · exact ih _ (by
        rw [List.map_cons, List.nodup_cons] at hn
        exact hn.2) h1

/-- Extraction only rewrites the manifest; the deployment list is kept. -/
theorem extractAPIProject_deployments {cfg : Config} {raw proj : ProjectAPI}
    (h : extractAPIProject cfg raw = .ok proj) : proj.deployments = raw.deployments := by
  unfold extractAPIProject at h
  split at h
  · simp at h
  · split at h
    · simp at h
    · simp only [Except.ok.injEq] at h
      rw [← h]

/-! Claim C2 -/

/-- C2 (amended): for every project whose deployment list is not an empty
(but present) list: after a first successful standalone apply with
`override = false`, a second `override = false` call returns the
`AlreadyExists` sentinel and leaves the index unchanged, while a second
`override = true` call succeeds (the existence check is skipped). -/
theorem claimC2_standalone_create_override (cfg : Config) (s₀ s₁ : IndexState)
    (raw : ProjectAPI) (hdep : raw.deployments ≠ some [])
    (h1 : applyAPIProjectInStandaloneMode cfg s₀ raw (some false) = (s₁, .ok ())) :
    applyAPIProjectInStandaloneMode cfg s₁ raw (some false) =
      (s₁, .error alreadyExistsError) ∧
    (applyAPIProjectInStandaloneMode cfg s₁ raw (some true)).2 = .ok () := by
  unfold applyAPIProjectInStandaloneMode at h1 ⊢
  cases hext : extractAPIProject cfg raw with
  | error e =>
    rw [hext] at h1
    have h2 := congrArg Prod.snd h1
    simp at h2
  | ok proj =>
    rw [hext] at h1
    simp only [validateAndUpdateXds] at h1
    by_cases hb : ((effectiveDeployments cfg proj).any (fun dep =>
        isAPIExist s₀ dep.deploymentVhost proj.apiYaml.data.id proj.apiYaml.data.name
          proj.apiYaml.data.version proj.apiYaml.data.organizationID)) = true
    · rw [if_pos (by simpa using hb)] at h1
      have h2 := congrArg Prod.snd h1
      simp at h2
    · rw [if_neg (by simpa using hb)] at h1
      have hfold : (buildVhostToEnvsMap (effectiveDeployments cfg proj)).foldl
          (fun acc e => updateAPI acc e.1 proj e.2) s₀ = s₁ := congrArg Prod.fst h1
      have hdsne : effectiveDeployments cfg proj ≠ [] := by
        unfold effectiveDeployments
        cases hpd : proj.deployments with
        | none => simp
        | some ds =>
          simp only
          intro hds
          rw [hds] at hpd
          rw [extractAPIProject_deployments hext] at hpd
          exact hdep hpd
      rcases List.exists_mem_of_ne_nil _ hdsne with ⟨dd, hdd⟩
      have hkey : dd.deploymentVhost ∈
          (buildVhostToEnvsMap (effectiveDeployments cfg proj)).map Prod.fst :=
        mem_keys_buildVhostToEnvsMap hdd
      have hrec : projRecord proj dd.deploymentVhost ∈ s₁.apiIndex := by
        rw [← hfold]
        exact projRecord_mem_foldl_updates proj _ s₀
          (keys_nodup_buildVhostToEnvsMap _) hkey
      have hex := isAPIExist_of_projRecord_mem hrec
      have hb1 : ((effectiveDeployments cfg proj).any (fun dep =>
          isAPIExist s₁ dep.deploymentVhost proj.apiYaml.data.id proj.apiYaml.data.name
            proj.apiYaml.data.version proj.apiYaml.data.organizationID)) = true :=
        List.any_eq_true.mpr ⟨dd, hdd, hex⟩
      constructor
      · simp only [validateAndUpdateXds]
        rw [if_pos (by simpa using hb1)]
      · simp [validateAndUpdateXds]

/-- Manifest data of a concrete valid standalone HTTP project (claim C2). -/
def c2SampleYaml : APIYamlData :=
  { name := "X", context := "/x", version := "1", apiType := "HTTP",
    organizationID := "org",
    endpointConfig := { rawProdEndpoints := some (.obj [("url", .str "https://h/1")]) },
    id := "A" }

/-- A concrete valid standalone project with a nil deployment list (claim C2). -/
def c2SampleProject : ProjectAPI := { apiYaml := { data := c2SampleYaml } }

/-- The same project carrying an empty, non-nil deployment list (claim C2). -/
def c2EmptyDeploymentsProject : ProjectAPI :=
  { apiYaml := { data := c2SampleYaml }, deployments := some [] }

/-- C2 witness: a concrete valid HTTP project deployed into an empty index;
the duplicate create fails with `AlreadyExists` and the override succeeds. -/
theorem claimC2_standalone_create_override_witness :
    applyAPIProjectInStandaloneMode {}
        ((applyAPIProjectInStandaloneMode {} {} c2SampleProject (some false)).1)
        c2SampleProject (some false) =
      (((applyAPIProjectInStandaloneMode {} {} c2SampleProject (some false)).1),
        .error alreadyExistsError) ∧
    (applyAPIProjectInStandaloneMode {}
        ((applyAPIProjectInStandaloneMode {} {} c2SampleProject (some false)).1)
        c2SampleProject (some true)).2 = .ok () :=
  claimC2_standalone_create_override {} {} _ c2SampleProject (by simp [c2SampleProject]) (by rfl)

/-- C2 counterexample to the claim as stated: a project carrying an empty
(but non-nil) deployment list.  Both the first and the second
`override = false` call succeed — the second does not return
`AlreadyExists` — because the existence loop and the update loop both range
over zero deployments. -/
theorem claimC2_counterexample :
    applyAPIProjectInStandaloneMode {} {} c2EmptyDeploymentsProject (some false) =
      ({}, .ok ()) ∧
    (applyAPIProjectInStandaloneMode {}
        ((applyAPIProjectInStandaloneMode {} {} c2EmptyDeploymentsProject (some false)).1)
        c2EmptyDeploymentsProject (some false)).2 = .ok () ∧
    (Except.ok () : Except String Unit) ≠ .error alreadyExistsError :=
  ⟨by rfl, by rfl, by simp⟩

/-! Lemmas about the parse pipeline -/

/-- A successfully parsed manifest carries the uppercased API type. -/
theorem newAPIYaml_apiType {cfg : Config} {raw y : APIYaml}
    (h : newAPIYaml cfg raw = .ok y) :
    y.data.apiType = goToUpper raw.data.apiType := by
  simp only [newAPIYaml] at h
  split at h
  · simp at h
  · split at h
    · simp at h
    · simp only [Except.ok.injEq] at h
      rw [← h]
      rfl

/-- An extraction error makes every entry point fail without touching the
index. -/
theorem entry_points_error_of_extract_error {cfg : Config} {raw : ProjectAPI}
    {e : String} (h : extractAPIProject cfg raw = .error e) (s : IndexState)
    (ov : Option Bool) (vmap : List (String × List String)) :
    applyAPIProjectInStandaloneMode cfg s raw ov = (s, .error e) ∧
    applyAPIProjectFromAPIM cfg s raw vmap = (s, .error e) ∧
    processMountedAPIProject cfg s raw = s := by
  unfold applyAPIProjectInStandaloneMode applyAPIProjectFromAPIM processMountedAPIProject
  rw [h]
  exact ⟨rfl, rfl, rfl⟩

/-- A manifest parse error is an extraction error. -/
theorem extractAPIProject_error_of_newAPIYaml_error {cfg : Config}
    {raw : ProjectAPI} {e : String} (h : newAPIYaml cfg raw.apiYaml = .error e) :
    extractAPIProject cfg raw = .error e := by
  unfold extractAPIProject
  rw [h]

/-! Claim C3 -/

/-- C3: a project whose uppercased type is outside \x7bHTTP, WS, WEBHOOK\x7d —
including the empty type of a missing manifest — fails extraction, and every
entry point returns (or, for the mounted-artifact loop, records) an error
while leaving the index untouched. -/
theorem claimC3_unsupported_type_rejected (cfg : Config) (s : IndexState)
    (raw : ProjectAPI) (ov : Option Bool) (vmap : List (String × List String))
    (h : goToUpper raw.apiYaml.data.apiType ∉ (["HTTP", "WS", "WEBHOOK"] : List String)) :
    (∃ e, extractAPIProject cfg raw = .error e) ∧
    ((applyAPIProjectInStandaloneMode cfg s raw ov).1 = s ∧
      ∃ e, (applyAPIProjectInStandaloneMode cfg s raw ov).2 = .error e) ∧
    ((applyAPIProjectFromAPIM cfg s raw vmap).1 = s ∧
      ∃ e, (applyAPIProjectFromAPIM cfg s raw vmap).2 = .error e) ∧
    processMountedAPIProject cfg s raw = s := by
  have hne1 : goToUpper raw.apiYaml.data.apiType ≠ "HTTP" :=
    fun hc => h (by rw [hc]; simp)
  have hne2 : goToUpper raw.apiYaml.data.apiType ≠ "WS" :=
    fun hc => h (by rw [hc]; simp)
  have hne3 : goToUpper raw.apiYaml.data.apiType ≠ "WEBHOOK" :=
    fun hc => h (by rw [hc]; simp)
  have hext : ∃ e, extractAPIProject cfg raw = .error e := by
    unfold extractAPIProject
    cases hy : newAPIYaml cfg raw.apiYaml with
    | error e => exact ⟨e, rfl⟩
    | ok y =>
      have hty := newAPIYaml_apiType hy
      have hvt : validateAPIType y =
          .error (if y.data.apiType = "" then "could not find api.yaml or api.json"
            else "API type is not currently supported with Choreo Connect") := by
        unfold validateAPIType
        by_cases hz : y.data.apiType = ""
        · rw [if_pos hz, if_pos hz]
        · rw [if_neg hz, if_neg hz, if_pos ?_]
          rw [hty]
          exact ⟨hne1, hne2, hne3⟩
      refine ⟨if y.data.apiType = "" then "could not find api.yaml or api.json"
        else "API type is not currently supported with Choreo Connect", ?_⟩
      show (match validateAPIType y with
        | .error e => (.error e : Except String ProjectAPI)
        | .ok _ => .ok { raw with apiYaml := y }) = _
      rw [hvt]
  rcases hext with ⟨e, he⟩
  have hall := entry_points_error_of_extract_error he s ov vmap
  refine ⟨⟨e, he⟩, ⟨?_, e, ?_⟩, ⟨?_, e, ?_⟩, hall.2.2⟩
  · rw [hall.1]
  · rw [hall.1]
  · rw [hall.2.1]
  · rw [hall.2.1]

/-- A GraphQL-typed project (unsupported type), used as claim C3's witness. -/
def c3SampleProject : ProjectAPI := { apiYaml := { data := { apiType := "GRAPHQL" } } }

/-- A non-empty index used to observe that rejection leaves it untouched
(claim C3). -/
def c3SampleIndex : IndexState :=
  { envIndex := [(("Z", "e1"), "v1")],
    apiIndex := [⟨"v1", "Z", "N", "1", "og"⟩] }

/-- C3 witness: a GraphQL project is rejected by extraction and by all three
entry points, and a pre-existing index is unchanged. -/
theorem claimC3_unsupported_type_rejected_witness :
    (∃ e, extractAPIProject {} c3SampleProject = .error e) ∧
    ((applyAPIProjectInStandaloneMode {} c3SampleIndex c3SampleProject (some false)).1 =
        c3SampleIndex ∧
      ∃ e, (applyAPIProjectInStandaloneMode {} c3SampleIndex c3SampleProject
        (some false)).2 = .error e) ∧
    ((applyAPIProjectFromAPIM {} c3SampleIndex c3SampleProject [("v1", ["e1"])]).1 =
        c3SampleIndex ∧
      ∃ e, (applyAPIProjectFromAPIM {} c3SampleIndex c3SampleProject
        [("v1", ["e1"])]).2 = .error e) ∧
    processMountedAPIProject {} c3SampleIndex c3SampleProject = c3SampleIndex :=
  claimC3_unsupported_type_rejected {} c3SampleIndex c3SampleProject (some false)
    [("v1", ["e1"])] (by decide)

/-! Claim C4 -/

/-- Source `ValidateMandatoryFields` on a project with the mandatory fields present
and some relative-or-blank endpoint URL: the error names the offending kind,
production endpoints first. -/
theorem validateMandatoryFields_bad_endpoints (y : APIYaml)
    (hname : y.data.name ≠ "") (hver : y.data.version ≠ "")
    (hctx : y.data.context ≠ "")
    (hbad : y.data.endpointConfig.productionEndpoints.any badEndpointURL = true ∨
            y.data.endpointConfig.sandBoxEndpoints.any badEndpointURL = true) :
    validateMandatoryFields y = .error
      (if y.data.endpointConfig.productionEndpoints.any badEndpointURL then
        prodEndpointErrMsg else sandboxEndpointErrMsg) := by
  have hpres : ¬(y.data.endpointConfig.productionEndpoints.length < 1 ∧
      y.data.endpointConfig.sandBoxEndpoints.length < 1) := by
    rcases hbad with hb | hb
    · rcases List.any_eq_true.mp hb with ⟨ep, hep, _⟩
      intro hc
      have h0 : y.data.endpointConfig.productionEndpoints = [] :=
        List.length_eq_zero.mp (Nat.lt_one_iff.mp hc.1)
      rw [h0] at hep
      simp at hep
    · rcases List.any_eq_true.mp hb with ⟨ep, hep, _⟩
      intro hc
      have h0 : y.data.endpointConfig.sandBoxEndpoints = [] :=
        List.length_eq_zero.mp (Nat.lt_one_iff.mp hc.2)
      rw [h0] at hep
      simp at hep
  simp only [validateMandatoryFields]
  rw [if_neg hname, if_neg hver, if_neg hctx, if_neg hpres]
  rw [if_neg (show ¬(("" ++ "" ++ "" ++ "" : String) ≠ "") from by simp)]
  by_cases hp : y.data.endpointConfig.productionEndpoints.any badEndpointURL = true
  · rw [if_pos hp, if_pos hp]
  · have hs : y.data.endpointConfig.sandBoxEndpoints.any badEndpointURL = true := by
      rcases hbad with hb | hb
      · exact absurd hb hp
      · exact hb
    rw [if_neg hp, if_neg hp, if_pos hs]

/-- C4 (amended): a project with name, version and context present and some
production or sandbox endpoint URL beginning with `/` or blank fails parsing
with the validation message naming the offending endpoint kind (production
checked first), and every entry point fails before the index is mutated. -/
theorem claimC4_bad_endpoint_url_rejected (cfg : Config) (s : IndexState)
    (raw : ProjectAPI) (ov : Option Bool) (vmap : List (String × List String))
    (hname : raw.apiYaml.data.name ≠ "") (hver : raw.apiYaml.data.version ≠ "")
    (hctx : raw.apiYaml.data.context ≠ "")
    (hbad : ((populateEndpointsInfo (formatAndUpdateInfo cfg raw.apiYaml)).data.endpointConfig.productionEndpoints.any
        badEndpointURL) = true ∨
      ((populateEndpointsInfo (formatAndUpdateInfo cfg raw.apiYaml)).data.endpointConfig.sandBoxEndpoints.any
        badEndpointURL) = true) :
    newAPIYaml cfg raw.apiYaml = .error
      (if (populateEndpointsInfo (formatAndUpdateInfo cfg raw.apiYaml)).data.endpointConfig.productionEndpoints.any
          badEndpointURL then prodEndpointErrMsg else sandboxEndpointErrMsg) ∧
    applyAPIProjectInStandaloneMode cfg s raw ov = (s, .error
      (if (populateEndpointsInfo (formatAndUpdateInfo cfg raw.apiYaml)).data.endpointConfig.productionEndpoints.any
          badEndpointURL then prodEndpointErrMsg else sandboxEndpointErrMsg)) ∧
    applyAPIProjectFromAPIM cfg s raw vmap = (s, .error
      (if (populateEndpointsInfo (formatAndUpdateInfo cfg raw.apiYaml)).data.endpointConfig.productionEndpoints.any
          badEndpointURL then prodEndpointErrMsg else sandboxEndpointErrMsg)) ∧
    processMountedAPIProject cfg s raw = s := by
  have hvm := validateMandatoryFields_bad_endpoints
    (populateEndpointsInfo (formatAndUpdateInfo cfg raw.apiYaml))
    hname hver hctx hbad
  have hny : newAPIYaml cfg raw.apiYaml = .error
      (if (populateEndpointsInfo (formatAndUpdateInfo cfg raw.apiYaml)).data.endpointConfig.productionEndpoints.any
          badEndpointURL then prodEndpointErrMsg else sandboxEndpointErrMsg) := by
    simp only [newAPIYaml]
    rw [hvm]
  have hext := extractAPIProject_error_of_newAPIYaml_error hny
  have hall := entry_points_error_of_extract_error hext s ov vmap
  exact ⟨hny, hall.1, hall.2.1, hall.2.2⟩

/-- Manifest data of a valid project with a relative production endpoint
URL (claim C4). -/
def c4SampleYaml : APIYamlData :=
  { name := "N", context := "/c", version := "1", apiType := "HTTP",
    organizationID := "o",
    endpointConfig := { rawProdEndpoints := some (.obj [("url", .str "/internal/x")]) },
    id := "C4" }

/-- A valid project with a relative production endpoint URL (claim C4). -/
def c4SampleProject : ProjectAPI := { apiYaml := { data := c4SampleYaml } }

/-- C4 witness: the relative production URL `/internal/x` is rejected with
the production-endpoints message by parsing and by every entry point, and
the index is untouched. -/
theorem claimC4_bad_endpoint_url_rejected_witness :
    newAPIYaml {} c4SampleProject.apiYaml = .error prodEndpointErrMsg ∧
    applyAPIProjectInStandaloneMode {} {} c4SampleProject (some false) =
      ({}, .error prodEndpointErrMsg) ∧
    applyAPIProjectFromAPIM {} {} c4SampleProject [("v1", ["e1"])] =
      ({}, .error prodEndpointErrMsg) ∧
    processMountedAPIProject {} {} c4SampleProject = {} := by
  have hc : ((populateEndpointsInfo (formatAndUpdateInfo ({} : Config)
      c4SampleProject.apiYaml)).data.endpointConfig.productionEndpoints.any
      badEndpointURL) = true := by decide
  have h := claimC4_bad_endpoint_url_rejected {} {} c4SampleProject (some false)
    [("v1", ["e1"])] (by decide) (by decide) (by decide) (Or.inl hc)
  rw [if_pos hc] at h
  exact h

/-- The same project with an empty name (claim C4's counterexample). -/
def c4NoNameProject : ProjectAPI :=
  { apiYaml := { data := { c4SampleYaml with name := "" } } }

/-- C4 counterexample to the claim as stated: a project with a bad
production endpoint URL but an empty name fails with the aggregated
mandatory-fields message, which does not name any endpoint kind. -/
theorem claimC4_counterexample :
    ((populateEndpointsInfo (formatAndUpdateInfo {} c4NoNameProject.apiYaml)).data.endpointConfig.productionEndpoints.any
        badEndpointURL) = true ∧
    newAPIYaml {} c4NoNameProject.apiYaml =
      .error "API Name fields cannot be empty for unknownAPIName 1" ∧
    "API Name fields cannot be empty for unknownAPIName 1" ≠ prodEndpointErrMsg ∧
    "API Name fields cannot be empty for unknownAPIName 1" ≠ sandboxEndpointErrMsg :=
  ⟨by decide, by rfl, by decide, by decide⟩

/-! Claim C5 -/

/-- C5: `PopulateEndpointsInfo` resolves a raw endpoint field that decodes
to a JSON object into a one-element list, a JSON array into the elementwise
decoded list in the same order, and leaves the list unchanged (hence empty,
for a freshly decoded manifest) when the field is present with any other
shape — the branch that logs the warning. -/
theorem claimC5_endpoint_normalization (y : APIYaml) :
    (∀ fs, y.data.endpointConfig.rawProdEndpoints = some (.obj fs) →
      (populateEndpointsInfo y).data.endpointConfig.productionEndpoints =
        [decodeEndpointInfo (.obj fs)]) ∧
    (∀ xs, y.data.endpointConfig.rawProdEndpoints = some (.arr xs) →
      (populateEndpointsInfo y).data.endpointConfig.productionEndpoints =
        xs.map decodeEndpointInfo) ∧
    (∀ j, y.data.endpointConfig.rawProdEndpoints = some j →
      rawEndpointsWarn (some j) = true →
      (populateEndpointsInfo y).data.endpointConfig.productionEndpoints =
        y.data.endpointConfig.productionEndpoints) ∧
    (∀ fs, y.data.endpointConfig.rawSandboxEndpoints = some (.obj fs) →
      (populateEndpointsInfo y).data.endpointConfig.sandBoxEndpoints =
        [decodeEndpointInfo (.obj fs)]) ∧
    (∀ xs, y.data.endpointConfig.rawSandboxEndpoints = some (.arr xs) →
      (populateEndpointsInfo y).data.endpointConfig.sandBoxEndpoints =
        xs.map decodeEndpointInfo) ∧
    (∀ j, y.data.endpointConfig.rawSandboxEndpoints = some j →
      rawEndpointsWarn (some j) = true →
      (populateEndpointsInfo y).data.endpointConfig.sandBoxEndpoints =
        y.data.endpointConfig.sandBoxEndpoints) := by
  have hprod : (populateEndpointsInfo y).data.endpointConfig.productionEndpoints =
      (resolveRawEndpoints y.data.endpointConfig.rawProdEndpoints).getD
        y.data.endpointConfig.productionEndpoints := rfl
  have hsand : (populateEndpointsInfo y).data.endpointConfig.sandBoxEndpoints =
      (resolveRawEndpoints y.data.endpointConfig.rawSandboxEndpoints).getD
        y.data.endpointConfig.sandBoxEndpoints := rfl
  refine ⟨?_, ?_, ?_, ?_, ?_, ?_⟩
  · intro fs hj
    rw [hprod, hj]
    rfl
  · intro xs hj
    rw [hprod, hj]
    rfl
  · intro j hj hw
    rw [hprod, hj]
    cases j <;> simp [rawEndpointsWarn] at hw ⊢ <;> rfl
  · intro fs hj
    rw [hsand, hj]
    rfl
  · intro xs hj
    rw [hsand, hj]
    rfl
  · intro j hj hw
    rw [hsand, hj]
    cases j <;> simp [rawEndpointsWarn] at hw ⊢ <;> rfl

/-- Manifest whose raw production field is a single JSON object (claim C5). -/
def c5ObjYaml : APIYaml :=
  { data := { endpointConfig := { rawProdEndpoints := some (.obj [("url", .str "https://a")]) } } }

/-- A two-element JSON array of endpoint objects (claim C5). -/
def c5ArrRaw : JValue :=
  .arr [.obj [("url", .str "https://a1")], .obj [("url", .str "https://a2")]]

/-- Manifest whose raw production field is a JSON array (claim C5). -/
def c5ArrYaml : APIYaml :=
  { data := { endpointConfig := { rawProdEndpoints := some c5ArrRaw } } }

/-- Manifest whose raw production field is a JSON string (claim C5). -/
def c5StrYaml : APIYaml :=
  { data := { endpointConfig := { rawProdEndpoints := some (.str "zz") } } }

/-- Manifest whose raw sandbox field is a single JSON object (claim C5). -/
def c5SandYaml : APIYaml :=
  { data := { endpointConfig := { rawSandboxEndpoints := some (.obj [("url", .str "https://s")]) } } }

/-- C5 witness: the three shapes on production plus an object-shaped
sandbox field, evaluated concretely. -/
theorem claimC5_endpoint_normalization_witness :
    (populateEndpointsInfo c5ObjYaml).data.endpointConfig.productionEndpoints =
      [{ endpoint := "https://a", config := {} }] ∧
    (populateEndpointsInfo c5ArrYaml).data.endpointConfig.productionEndpoints =
      [{ endpoint := "https://a1", config := {} },
       { endpoint := "https://a2", config := {} }] ∧
    (populateEndpointsInfo c5StrYaml).data.endpointConfig.productionEndpoints = [] ∧
    rawEndpointsWarn c5StrYaml.data.endpointConfig.rawProdEndpoints = true ∧
    (populateEndpointsInfo c5SandYaml).data.endpointConfig.sandBoxEndpoints =
      [{ endpoint := "https://s", config := {} }] :=
  ⟨(claimC5_endpoint_normalization c5ObjYaml).1 [("url", .str "https://a")] rfl,
   (claimC5_endpoint_normalization c5ArrYaml).2.1
     [.obj [("url", .str "https://a1")], .obj [("url", .str "https://a2")]] rfl,
   (claimC5_endpoint_normalization c5StrYaml).2.2.1 (.str "zz") rfl (by decide),
   by decide,
   (claimC5_endpoint_normalization c5SandYaml).2.2.2.1 [("url", .str "https://s")] rfl⟩

/-! Claim C9 -/

/-- C9: query handling of `ListApis`, evaluated on the decisive inputs.
A query of the form `type:<value>` filters by the uppercased value; a nil
query and queries with another key are ignored; but the colon-free query
`"type"` makes the code read `queryPair[1]` of a one-element slice — an
index-out-of-range panic, not an ignored query. -/
theorem claimC9_list_query_behaviour :
    listApisQuery none = .unfiltered ∧
    listApisQuery (some "type:ws") = .filtered "WS" ∧
    listApisQuery (some "sort:asc") = .unfiltered ∧
    listApisQuery (some "Type") = .unfiltered ∧
    listApisQuery (some "type") = .panicked :=
  ⟨rfl, by decide, by decide, by decide, by decide⟩

/-! Claim C10 -/

/-- C10: a nil override pointer behaves exactly like a pointer to `false`:
the standalone entry point treats the nil case as create mode. -/
theorem claimC10_nil_override_is_create (cfg : Config) (s : IndexState)
    (raw : ProjectAPI) :
    applyAPIProjectInStandaloneMode cfg s raw none =
      applyAPIProjectInStandaloneMode cfg s raw (some false) := by
  unfold applyAPIProjectInStandaloneMode
  cases extractAPIProject cfg raw with
  | error e => rfl
  | ok proj => rfl

end Microgateway
